import Mathlib

/-
Verification development for the invite-tracker bot (src/main.py).

The Python program keeps three pieces of state:
  * `invite_data`  : dict inviter-id-string -> InviterRecord   (invite_data.json)
  * `invites`      : list of InviteRecord dicts                (invites.json)
  * `guild_invite_caches[guild.id]` : dict code -> last observed uses

Python dicts are modelled as association lists with first-occurrence
lookup; assignment replaces the first matching key in place and appends
at the end when the key is absent (exactly the observable behaviour of a
Python dict, whose keys are unique and insertion-ordered).  All handlers
are translated statement by statement from src/main.py.
-/

namespace InviteTracker

/-- Lookup in an association list, first occurrence (Python `d[k]` / `d.get(k)`). -/
def listLookup {α : Type} : List (String × α) → String → Option α
  | [], _ => none
  | p :: rest, k => if p.1 == k then some p.2 else listLookup rest k

/-- Assignment `d[k] = v`: replace the first entry with key `k`, or append. -/
def listInsert {α : Type} : List (String × α) → String → α → List (String × α)
  | [], k, v => [(k, v)]
  | p :: rest, k, v => if p.1 == k then (k, v) :: rest else p :: listInsert rest k v

/-- Deletion `del d[k]` (removes every entry with key `k`; a Python dict has at most one). -/
def listErase {α : Type} : List (String × α) → String → List (String × α)
  | [], _ => []
  | p :: rest, k => if p.1 == k then listErase rest k else p :: listErase rest k

/-- One element of a `recruitment_ledger` (src/main.py lines 384-390). -/
structure RecruitmentEntry where
  user_id : String
  username : String
  display_name : String
  initiation_date : String
  invite_code : String
deriving DecidableEq, Repr

/-- One value of the `invite_data` dict (src/main.py lines 192-198). -/
structure InviterData where
  username : String
  display_name : String
  active_invites : List (String × Nat)
  successful_invites : Nat
  recruitment_ledger : List RecruitmentEntry
deriving DecidableEq, Repr

/-- One element of the `invites` list (src/main.py lines 222-231). -/
structure InviteEntry where
  code : String
  inviter_id : Int
  inviter_display_name : String
  channel_id : Int
  created_at : String
  uses : Nat
  max_uses : Nat
  temporary : Bool
deriving DecidableEq, Repr

/-- A guild member as the handlers observe it: `member.id`, `str(member)`,
`member.display_name`. -/
structure Member where
  id : Int
  username : String
  display_name : String
deriving DecidableEq, Repr

/-- The guild as the handlers observe it: `guild.get_member` and `guild.owner`. -/
structure Guild where
  members : List Member
  owner_id : Int
deriving DecidableEq, Repr

/-- A remote invite as returned by `guild.invites()`, restricted to the fields
`on_member_join` reads: `invite.code`, `invite.uses`, and
`invite.inviter.display_name` (read only on the fresh-record path, line 335). -/
structure RemoteInvite where
  code : String
  uses : Nat
  inviter_display_name : String
deriving DecidableEq, Repr

/-- The InviteManager state for a single guild: the two persisted tables plus
the volatile invite cache `guild_invite_caches[guild.id]`. -/
structure EngineState where
  invite_data : List (String × InviterData)
  invites : List InviteEntry
  cache : List (String × Nat)
deriving DecidableEq, Repr

/-- A call to `FileManager.write_json_file` for one of the two tables. -/
inductive SaveEvent
  | inviteData
  | invites
deriving DecidableEq, Repr

/-- The joining member as `on_member_join` observes it. -/
structure JoinEvent where
  member_id : Int
  member_username : String
  member_display_name : String
deriving DecidableEq, Repr

/-- A milestone direct message request (src/main.py lines 367-377). -/
structure Notification where
  recipient : Int
  inviter_display_name : String
  new_count : Nat
  recruit_display_name : String
deriving DecidableEq, Repr

/-- An invite as `on_invite_create` observes it. -/
structure CreateEvent where
  code : String
  inviter : Option Member
  channel_id : Int
  uses : Nat
  max_uses : Nat
  temporary : Bool
deriving DecidableEq, Repr

/-- A fresh InviterRecord (src/main.py lines 192-198 and 333-339). -/
def freshRecord (username display_name : String) : InviterData :=
  { username := username
    display_name := display_name
    active_invites := []
    successful_invites := 0
    recruitment_ledger := [] }

/-- InviteManager.validate_invites (src/main.py lines 60-77): drop every
`active_invites` entry whose code is absent from the remote invite list.
(The final unconditional save is not modelled here; no claim mentions it.) -/
def validate_invites (s : EngineState) (remote : List RemoteInvite) : EngineState :=
  let codes := remote.map (fun i => i.code)
  { s with invite_data := s.invite_data.map (fun p =>
      (p.1, { p.2 with active_invites := p.2.active_invites.filter (fun q => codes.contains q.1) })) }

/-- InviteBot.on_invite_create (src/main.py lines 174-237). -/
def on_invite_create (ev : CreateEvent) (now : String) (s : EngineState) : EngineState :=
  match ev.inviter with
  | none => s
  | some inviter =>
    let iid := toString inviter.id
    let id1 := match listLookup s.invite_data iid with
      | some _ => s.invite_data
      | none => s.invite_data ++ [(iid, freshRecord inviter.username inviter.display_name)]
    let id2 := match listLookup id1 iid with
      | none => id1
      | some d =>
        match listLookup d.active_invites ev.code with
        | some _ => id1
        | none => listInsert id1 iid { d with active_invites := d.active_invites ++ [(ev.code, 0)] }
    let entry : InviteEntry :=
      { code := ev.code
        inviter_id := inviter.id
        inviter_display_name := inviter.display_name
        channel_id := ev.channel_id
        created_at := now
        uses := ev.uses
        max_uses := ev.max_uses
        temporary := ev.temporary }
    { s with invite_data := id2, invites := s.invites ++ [entry] }

/-- InviteBot.on_invite_delete (src/main.py lines 239-305).  Returns the new
state together with the sequence of `write_json_file` calls performed. -/
def on_invite_delete (code : String) (s : EngineState) : EngineState × List SaveEvent :=
  let resolved := (s.invites.find? (fun e => e.code == code)).map (fun e => toString e.inviter_id)
  let step2 := match resolved with
    | none => (s.invite_data, ([] : List SaveEvent))
    | some iid =>
      match listLookup s.invite_data iid with
      | none => (s.invite_data, [])
      | some d =>
        match listLookup d.active_invites code with
        | none => (s.invite_data, [])
        | some _ =>
          (listInsert s.invite_data iid { d with active_invites := listErase d.active_invites code },
           [SaveEvent.inviteData])
  let cache1 := listErase s.cache code
  let invites1 := s.invites.filter (fun e => !(e.code == code))
  let saves2 := if invites1.length < s.invites.length then [SaveEvent.invites] else []
  ({ invite_data := step2.1, invites := invites1, cache := cache1 }, step2.2 ++ saves2)

/-- Lookup of `guild.get_member(uid)`. -/
def getMember (g : Guild) (uid : Int) : Option Member :=
  g.members.find? (fun m => m.id == uid)

/-- Inner scan of `on_member_join` (src/main.py lines 322-326): walk the saved
invites and return the first entry whose code matches and whose inviter is a
current guild member.  Matching entries with an unresolvable inviter are
passed over and the scan continues. -/
def findAttributable (invites : List InviteEntry) (g : Guild) (code : String) :
    Option (InviteEntry × Member) :=
  match invites with
  | [] => none
  | e :: rest =>
    if e.code == code then
      match getMember g e.inviter_id with
      | some m => some (e, m)
      | none => findAttributable rest g code
    else findAttributable rest g code

/-- The `for invite_entry in ... invites:` loop of src/main.py lines 409-415:
increment the `uses` of the first saved invite with the given code. -/
def bumpUses : List InviteEntry → String → List InviteEntry
  | [], _ => []
  | e :: rest, c => if e.code == c then { e with uses := e.uses + 1 } :: rest else e :: bumpUses rest c

/-- True when some inviter's `recruitment_ledger` contains an entry for `uid`
(the uniqueness guard, src/main.py lines 393-397). -/
def anyLedgerHas (l : List (String × InviterData)) (uid : String) : Bool :=
  l.any (fun p => p.2.recruitment_ledger.any (fun e => e.user_id == uid))

/-- The recruited-member dict built at src/main.py lines 384-390. -/
def joinEntry (ev : JoinEvent) (inv : RemoteInvite) (now : String) : RecruitmentEntry :=
  { user_id := toString ev.member_id
    username := ev.member_username
    display_name := ev.member_display_name
    initiation_date := now
    invite_code := inv.code }

/-- The InviterRecord as updated by the attribution block of `on_member_join`
before the ledger append: ensure `active_invites[code]` exists, increment it,
and increment `successful_invites` (src/main.py lines 341-361). -/
def attrD1 (data0 : InviterData) (code : String) : InviterData :=
  let ai0 := match listLookup data0.active_invites code with
    | some _ => data0.active_invites
    | none => data0.active_invites ++ [(code, 0)]
  { data0 with
    active_invites := listInsert ai0 code (((listLookup ai0 code).getD 0) + 1)
    successful_invites := data0.successful_invites + 1 }

/-- The InviterRecord read (or freshly created) for the resolved inviter at
the start of the attribution block (src/main.py lines 332-339). -/
def attrData0 (s : EngineState) (m : Member) (inv : RemoteInvite) : InviterData :=
  match listLookup s.invite_data (toString m.id) with
  | some d => d
  | none => freshRecord m.username inv.inviter_display_name

/-- The ledger append performed at src/main.py lines 398-400. -/
def attrD2 (d1 : InviterData) (entry : RecruitmentEntry) : InviterData :=
  { d1 with recruitment_ledger := d1.recruitment_ledger ++ [entry] }

/-- The new `invite_data` table produced by the attribution block: create the
record if absent (src/main.py lines 332-339), update counters (341-361), and
append the ledger entry under the system-wide uniqueness guard (383-400). -/
def attrTable (s : EngineState) (inv : RemoteInvite) (m : Member) (ev : JoinEvent)
    (now : String) : List (String × InviterData) :=
  let iid := toString m.id
  let d1 := attrD1 (attrData0 s m inv) inv.code
  let id1 := listInsert s.invite_data iid d1
  if anyLedgerHas id1 (toString ev.member_id) then id1
  else listInsert id1 iid (attrD2 d1 (joinEntry ev inv now))

/-- The attribution block of `on_member_join` (src/main.py lines 326-423,
the body of `if inviter:`), for one remote invite `inv` attributed to the
resolved member `m`. -/
def attributeInvite (g : Guild) (s : EngineState) (inv : RemoteInvite) (m : Member)
    (ev : JoinEvent) (now : String) : EngineState × List Notification :=
  let prev := (attrData0 s m inv).successful_invites
  let newCount := prev + 1
  let notifs := if newCount ∈ ([5, 10, 15, 20, 25, 30, 50] : List Nat) ∧ prev < newCount then
      [{ recipient := g.owner_id
         inviter_display_name := m.display_name
         new_count := newCount
         recruit_display_name := ev.member_display_name }]
    else []
  ({ invite_data := attrTable s inv m ev now
     invites := bumpUses s.invites inv.code
     cache := listInsert s.cache inv.code inv.uses },
   notifs)

/-- The outer `for invite in current_invites:` loop of `on_member_join`
(src/main.py lines 317-423).  The `break` at line 423 terminates only the
inner scan over saved invites, so the outer loop continues with the next
remote invite against the updated state. -/
def joinLoop (g : Guild) (ev : JoinEvent) (now : String) :
    List RemoteInvite → EngineState → EngineState × List Notification
  | [], s => (s, [])
  | inv :: rest, s =>
    if (listLookup s.cache inv.code).getD 0 < inv.uses then
      match findAttributable s.invites g inv.code with
      | some em =>
        let step := attributeInvite g s inv em.2 ev now
        let restResult := joinLoop g ev now rest step.1
        (restResult.1, step.2 ++ restResult.2)
      | none => joinLoop g ev now rest s
    else joinLoop g ev now rest s

/-- on_member_join (src/main.py lines 308-426): validate first, then scan the
remote invites for use-count deltas. -/
def on_member_join (g : Guild) (remote : List RemoteInvite) (ev : JoinEvent) (now : String)
    (s : EngineState) : EngineState × List Notification :=
  joinLoop g ev now remote (validate_invites s remote)

/-- Refresh of one InviterRecord by InviteManager.ensure_all_display_names
(src/main.py lines 140-145). -/
def refreshRecord (g : Guild) (iid : String) (d : InviterData) : InviterData :=
  match g.members.find? (fun m => toString m.id == iid) with
  | some m => if m.display_name == d.display_name then d else { d with display_name := m.display_name }
  | none => d

/-- InviteManager.ensure_all_display_names (src/main.py lines 137-148).
Returns the new state, the `updated` flag, and the saves performed. -/
def ensure_all_display_names (g : Guild) (s : EngineState) :
    EngineState × Bool × List SaveEvent :=
  let updated := s.invite_data.any (fun p =>
    match g.members.find? (fun m => toString m.id == p.1) with
    | some m => !(m.display_name == p.2.display_name)
    | none => false)
  let newData := s.invite_data.map (fun p => (p.1, refreshRecord g p.1 p.2))
  ({ s with invite_data := newData }, updated, if updated then [SaveEvent.inviteData] else [])

/-- The backing file of a table as `FileManager.read_json_file` observes it:
either absent or present with raw text content. -/
inductive FileContent
  | missing
  | present (raw : String)
deriving DecidableEq, Repr

/-- FileManager.read_json_file (src/main.py lines 22-31): `emptyVal` is the
empty dict literal returned on a missing file or a JSON decode error, and
`parse` is `json.load`, returning `none` exactly on corrupt content. -/
def read_json_file {α : Type} (emptyVal : α) (parse : String → Option α) (f : FileContent) : α :=
  match f with
  | FileContent.missing => emptyVal
  | FileContent.present raw =>
    match parse raw with
    | some d => d
    | none => emptyVal

/-- Outcome of the underlying write attempt (`open` + `json.dump`). -/
inductive WriteOutcome
  | success
  | failure (err : String)
deriving DecidableEq, Repr

/-- FileManager.write_json_file (src/main.py lines 33-41): the whole body sits
in a try/except, so the handler returns normally (`Except.ok` with the log
line) on both outcomes; a raised exception would be `Except.error`, which is
never produced. -/
def write_json_file (path : String) (o : WriteOutcome) : Except String String :=
  match o with
  | WriteOutcome.success => Except.ok (path ++ " updated successfully.")
  | WriteOutcome.failure e => Except.ok ("Error saving " ++ path ++ ": " ++ e)

/-- Sum of a numeric projection over all records of the inviter table. -/
def sumBy (f : InviterData → Nat) (l : List (String × InviterData)) : Nat :=
  (l.map (fun p => f p.2)).sum

/-- Number of ledger entries for `uid` inside one record. -/
def countLedger (uid : String) (d : InviterData) : Nat :=
  (d.recruitment_ledger.filter (fun e => e.user_id == uid)).length

/-- Number of ledger entries for `uid` across the whole inviter table. -/
def ledgerCount (l : List (String × InviterData)) (uid : String) : Nat :=
  sumBy (countLedger uid) l

/-- Total of all `successful_invites` counters. -/
def totalSuccessful (s : EngineState) : Nat :=
  sumBy (fun d => d.successful_invites) s.invite_data

/-- The `successful_invites` counter of one inviter (0 when absent). -/
def succOf (s : EngineState) (iid : String) : Nat :=
  ((listLookup s.invite_data iid).map (fun d => d.successful_invites)).getD 0

/-- The ledger length of one inviter (0 when absent). -/
def ledgerLenOf (s : EngineState) (iid : String) : Nat :=
  ((listLookup s.invite_data iid).map (fun d => d.recruitment_ledger.length)).getD 0

/-- The `active_invites` dict of one inviter ([] when absent). -/
def activeDictOf (s : EngineState) (iid : String) : List (String × Nat) :=
  ((listLookup s.invite_data iid).map (fun d => d.active_invites)).getD []

/-- Number of saved-invite entries carrying a given code. -/
def regCount (s : EngineState) (code : String) : Nat :=
  (s.invites.filter (fun e => e.code == code)).length

/-- One remote invite is attributed by `joinLoop` exactly when its use count
exceeds the cached one and some saved entry for its code has a resolvable
inviter. -/
def attributableB (s : EngineState) (g : Guild) (inv : RemoteInvite) : Bool :=
  decide ((listLookup s.cache inv.code).getD 0 < inv.uses) &&
    (findAttributable s.invites g inv.code).isSome

/-- One engine event-handler step, as the event dispatcher delivers them:
invite created, invite deleted, member joined, display-name refresh, or a
validation sweep. -/
inductive Step : EngineState → EngineState → Prop
  | create (ev : CreateEvent) (now : String) (s : EngineState) :
      Step s (on_invite_create ev now s)
  | remove (code : String) (s : EngineState) :
      Step s (on_invite_delete code s).1
  | join (g : Guild) (remote : List RemoteInvite) (ev : JoinEvent) (now : String)
      (s : EngineState) : Step s (on_member_join g remote ev now s).1
  | refresh (g : Guild) (s : EngineState) :
      Step s (ensure_all_display_names g s).1
  | sweep (s : EngineState) (remote : List RemoteInvite) :
      Step s (validate_invites s remote)

/-- States reachable from the empty initial state through handler steps. -/
inductive Reachable : EngineState → Prop
  | base : Reachable { invite_data := [], invites := [], cache := [] }
  | step (s s' : EngineState) : Reachable s → Step s s' → Reachable s'


/-- Outcome of the inviter resolution chain in on_invite_delete: the code is
found in the saved invites, the resolved inviter has a record, and that
record's active_invites contains the code (src/main.py lines 243-268). -/
def deleteResolves (s : EngineState) (code : String) : Bool :=
  match s.invites.find? (fun x => x.code == code) with
  | none => false
  | some e =>
    match listLookup s.invite_data (toString e.inviter_id) with
    | none => false
    | some d => (listLookup d.active_invites code).isSome

/-- Concrete guild members, invites and states used by the closed theorems. -/
def exM1 : Member := { id := 1, username := "u1", display_name := "U1" }

/-- Second concrete member. -/
def exM2 : Member := { id := 2, username := "u2", display_name := "U2" }

/-- A guild containing both inviters. -/
def exGuild : Guild := { members := [exM1, exM2], owner_id := 99 }

/-- A guild in which no inviter is a member any more. -/
def exGuildEmpty : Guild := { members := [], owner_id := 99 }

/-- Saved invite "A" by inviter 1. -/
def exEntA : InviteEntry :=
  { code := "A", inviter_id := 1, inviter_display_name := "U1", channel_id := 7,
    created_at := "t0", uses := 0, max_uses := 0, temporary := false }

/-- Saved invite "B" by inviter 2. -/
def exEntB : InviteEntry :=
  { code := "B", inviter_id := 2, inviter_display_name := "U2", channel_id := 7,
    created_at := "t0", uses := 0, max_uses := 0, temporary := false }

/-- Inviter 1's record with one active invite and no recruits. -/
def exDA : InviterData :=
  { username := "u1", display_name := "U1", active_invites := [("A", 0)],
    successful_invites := 0, recruitment_ledger := [] }

/-- Inviter 2's record with one active invite and no recruits. -/
def exDB : InviterData :=
  { username := "u2", display_name := "U2", active_invites := [("B", 0)],
    successful_invites := 0, recruitment_ledger := [] }

/-- A state with two inviters, two saved invites, and a seeded cache. -/
def exState : EngineState :=
  { invite_data := [("1", exDA), ("2", exDB)], invites := [exEntA, exEntB],
    cache := [("A", 0), ("B", 0)] }

/-- Remote invite "A" observed with one use. -/
def exRA : RemoteInvite := { code := "A", uses := 1, inviter_display_name := "U1" }

/-- Remote invite "B" observed with one use. -/
def exRB : RemoteInvite := { code := "B", uses := 1, inviter_display_name := "U2" }

/-- The joining member (id 100). -/
def exJoin : JoinEvent :=
  { member_id := 100, member_username := "joiner", member_display_name := "Joiner" }

/-- A ledger entry recording that member 100 was recruited by inviter 1. -/
def exLed100 : RecruitmentEntry :=
  { user_id := "100", username := "joiner", display_name := "Joiner",
    initiation_date := "t0", invite_code := "A" }

/-- Inviter 1's record after recruiting member 100. -/
def exDA1 : InviterData :=
  { username := "u1", display_name := "U1", active_invites := [("A", 1)],
    successful_invites := 1, recruitment_ledger := [exLed100] }

/-- A state in which member 100 is already recruited by inviter 1 while
invite "B" still shows an unconsumed use delta. -/
def exState2 : EngineState :=
  { invite_data := [("1", exDA1), ("2", exDB)], invites := [exEntA, exEntB],
    cache := [("A", 1), ("B", 0)] }

/-- Replay of the creation event for the already-known invite "A". -/
def exCreateA : CreateEvent :=
  { code := "A", inviter := some exM1, channel_id := 7, uses := 0, max_uses := 0,
    temporary := false }

/-- Member 1 after changing display name. -/
def exM1New : Member := { id := 1, username := "u1", display_name := "NewU1" }

/-- Guild observing member 1's new display name. -/
def exGuildNew : Guild := { members := [exM1New], owner_id := 99 }

/-- A ledger entry of inviter 8 whose recruit is user 1 under the old name. -/
def exLed1 : RecruitmentEntry :=
  { user_id := "1", username := "u1", display_name := "U1",
    initiation_date := "t0", invite_code := "A" }

/-- Inviter 8's record referencing user 1 as a recruit. -/
def exD8 : InviterData :=
  { username := "u8", display_name := "U8", active_invites := [],
    successful_invites := 1, recruitment_ledger := [exLed1] }

/-- A state where user 1 is both a tracked inviter and inviter 8's recruit. -/
def exStateRef : EngineState :=
  { invite_data := [("1", exDA), ("8", exD8)], invites := [], cache := [] }

/-- Lookup after insert at the same key. -/
theorem listLookup_insert_self {α : Type} (l : List (String × α)) (k : String) (v : α) :
    listLookup (listInsert l k v) k = some v := by
  induction l with
  | nil => simp [listInsert, listLookup]
  | cons p rest ih =>
    by_cases h : p.1 = k
    · simp [listInsert, listLookup, h]
    · simp [listInsert, listLookup, h, ih]

/-- Lookup after insert at a different key. -/
theorem listLookup_insert_ne {α : Type} (l : List (String × α)) (k k' : String) (v : α)
    (h : k' ≠ k) : listLookup (listInsert l k v) k' = listLookup l k' := by
  induction l with
  | nil =>
    simp [listInsert, listLookup]
    exact fun hh => h hh.symm
  | cons p rest ih =>
    by_cases hp : p.1 = k
    · simp [listInsert, listLookup, hp, Ne.symm h]
    · by_cases hp' : p.1 = k'
      · simp [listInsert, listLookup, hp, hp', h]
      · simp [listInsert, listLookup, hp, hp', ih]

/-- Lookup after erase at the erased key. -/
theorem listLookup_erase_self {α : Type} (l : List (String × α)) (k : String) :
    listLookup (listErase l k) k = none := by
  induction l with
  | nil => simp [listErase, listLookup]
  | cons p rest ih =>
    by_cases h : p.1 = k
    · simp [listErase, h, ih]
    · simp [listErase, listLookup, h, ih]

/-- Lookup after erase at a different key. -/
theorem listLookup_erase_ne {α : Type} (l : List (String × α)) (k k' : String)
    (h : k' ≠ k) : listLookup (listErase l k) k' = listLookup l k' := by
  induction l with
  | nil => simp [listErase, listLookup]
  | cons p rest ih =>
    by_cases hp : p.1 = k
    · have : ¬p.1 = k' := by
        rw [hp]
        exact fun hh => h hh.symm
      simp [listErase, listLookup, hp, this, ih, Ne.symm h]
    · by_cases hp' : p.1 = k'
      · simp [listErase, listLookup, hp, hp', h]
      · simp [listErase, listLookup, hp, hp', ih]

/-- Inserting at an absent key appends at the end. -/
theorem listInsert_of_lookup_none {α : Type} (l : List (String × α)) (k : String) (v : α)
    (h : listLookup l k = none) : listInsert l k v = l ++ [(k, v)] := by
  induction l with
  | nil => simp [listInsert]
  | cons p rest ih =>
    by_cases hp : p.1 = k
    · simp [listLookup, hp] at h
    · simp [listLookup, hp] at h
      simp [listInsert, hp, ih h]

/-- sumBy distributes over append. -/
theorem sumBy_append (f : InviterData → Nat) (l1 l2 : List (String × InviterData)) :
    sumBy f (l1 ++ l2) = sumBy f l1 + sumBy f l2 := by
  simp [sumBy]

/-- Inserting over an existing first occurrence exchanges its contribution. -/
theorem sumBy_insert_some (f : InviterData → Nat) (l : List (String × InviterData))
    (k : String) (v d0 : InviterData) (h : listLookup l k = some d0) :
    sumBy f (listInsert l k v) + f d0 = sumBy f l + f v := by
  induction l with
  | nil => simp [listLookup] at h
  | cons p rest ih =>
    by_cases hp : p.1 = k
    · simp [listLookup, hp] at h
      subst h
      simp [listInsert, hp, sumBy]
      omega
    · simp [listLookup, hp] at h
      have := ih h
      simp [listInsert, hp, sumBy] at this ⊢
      omega

/-- Inserting at an absent key adds its contribution. -/
theorem sumBy_insert_none (f : InviterData → Nat) (l : List (String × InviterData))
    (k : String) (v : InviterData) (h : listLookup l k = none) :
    sumBy f (listInsert l k v) = sumBy f l + f v := by
  rw [listInsert_of_lookup_none l k v h, sumBy_append]
  simp [sumBy]

/-- A key-preserving per-record map that preserves the projection preserves the sum. -/
theorem sumBy_map_keyed (f : InviterData → Nat) (g : String → InviterData → InviterData)
    (l : List (String × InviterData)) (h : ∀ k d, f (g k d) = f d) :
    sumBy f (l.map (fun p => (p.1, g p.1 p.2))) = sumBy f l := by
  induction l with
  | nil => simp [sumBy]
  | cons p rest ih =>
    simp [sumBy] at ih ⊢
    rw [h p.1 p.2, ih]

/-- attrD1 increments the successful-invites counter. -/
theorem attrD1_succ (d : InviterData) (c : String) :
    (attrD1 d c).successful_invites = d.successful_invites + 1 := rfl

/-- attrD1 leaves the recruitment ledger untouched. -/
theorem attrD1_ledger (d : InviterData) (c : String) :
    (attrD1 d c).recruitment_ledger = d.recruitment_ledger := rfl

/-- Components of the state returned by the attribution block. -/
theorem attributeInvite_invite_data (g : Guild) (s : EngineState) (inv : RemoteInvite)
    (m : Member) (ev : JoinEvent) (now : String) :
    (attributeInvite g s inv m ev now).1.invite_data = attrTable s inv m ev now := rfl

/-- Cache component of the state returned by the attribution block. -/
theorem attributeInvite_cache (g : Guild) (s : EngineState) (inv : RemoteInvite)
    (m : Member) (ev : JoinEvent) (now : String) :
    (attributeInvite g s inv m ev now).1.cache = listInsert s.cache inv.code inv.uses := rfl

/-- Invites component of the state returned by the attribution block. -/
theorem attributeInvite_invites (g : Guild) (s : EngineState) (inv : RemoteInvite)
    (m : Member) (ev : JoinEvent) (now : String) :
    (attributeInvite g s inv m ev now).1.invites = bumpUses s.invites inv.code := rfl

/-- The uniqueness guard is false exactly when no ledger entry for `uid` exists. -/
theorem anyLedgerHas_eq_false_iff (l : List (String × InviterData)) (uid : String) :
    anyLedgerHas l uid = false ↔ ledgerCount l uid = 0 := by
  induction l with
  | nil => simp [anyLedgerHas, ledgerCount, sumBy]
  | cons p rest ih =>
    simp only [anyLedgerHas, List.any_cons, Bool.or_eq_false_iff] at ih ⊢
    simp only [ledgerCount, sumBy, List.map_cons, List.sum_cons] at ih ⊢
    rw [Nat.add_eq_zero_iff]
    constructor
    · rintro ⟨h1, h2⟩
      refine ⟨?_, ih.mp h2⟩
      simp only [countLedger, List.length_eq_zero, List.filter_eq_nil_iff]
      intro e he
      have := List.any_eq_false.mp h1 e he
      simpa using this
    · rintro ⟨h1, h2⟩
      refine ⟨?_, ih.mpr h2⟩
      rw [List.any_eq_false]
      intro e he
      simp only [countLedger, List.length_eq_zero, List.filter_eq_nil_iff] at h1
      simpa using h1 e he

/-- Equal per-user ledger counts give equal uniqueness-guard outcomes. -/
theorem anyLedgerHas_congr (l1 l2 : List (String × InviterData)) (uid : String)
    (h : ledgerCount l1 uid = ledgerCount l2 uid) :
    anyLedgerHas l1 uid = anyLedgerHas l2 uid := by
  rcases hb : anyLedgerHas l2 uid with _ | _
  · rw [anyLedgerHas_eq_false_iff, h, ← anyLedgerHas_eq_false_iff, hb]
  · rcases ha : anyLedgerHas l1 uid with _ | _
    · rw [anyLedgerHas_eq_false_iff, h, ← anyLedgerHas_eq_false_iff, hb] at ha
      cases ha
    · rfl

/-- Folding the guarded ledger append into one insert-level fact. -/
theorem sumBy_guardInsert (f : InviterData → Nat) (l : List (String × InviterData))
    (iid : String) (d1 d2 : InviterData) (b : Bool) (hf : f d2 = f d1) :
    sumBy f (if b then listInsert l iid d1
             else listInsert (listInsert l iid d1) iid d2)
      = sumBy f (listInsert l iid d1) := by
  cases b
  · simp only [Bool.false_eq_true, if_false]
    have hl := listLookup_insert_self l iid d1
    have hs := sumBy_insert_some f (listInsert l iid d1) iid d2 d1 hl
    omega
  · simp

/-- The attribution block adds exactly one to the sum of all counters. -/
theorem sumBy_attrTable_succ (s : EngineState) (inv : RemoteInvite) (m : Member)
    (ev : JoinEvent) (now : String) :
    sumBy (fun d => d.successful_invites) (attrTable s inv m ev now)
      = sumBy (fun d => d.successful_invites) s.invite_data + 1 := by
  unfold attrTable
  rw [sumBy_guardInsert]
  · rcases h0 : listLookup s.invite_data (toString m.id) with _ | d0
    · rw [sumBy_insert_none _ _ _ _ h0, attrD1_succ]
      simp [attrData0, h0, freshRecord]
    · simp only [attrData0, h0]
      have hs := sumBy_insert_some (fun d => d.successful_invites) s.invite_data
        (toString m.id) (attrD1 d0 inv.code) d0 h0
      simp only [attrD1_succ] at hs
      omega
  · rfl

/-- Inserting a record whose per-user ledger count matches the replaced
record's leaves the table's count unchanged. -/
theorem ledgerCount_insert_attr (l : List (String × InviterData)) (iid : String)
    (d1 : InviterData) (u : String)
    (h : countLedger u d1 = ((listLookup l iid).map (countLedger u)).getD 0) :
    ledgerCount (listInsert l iid d1) u = ledgerCount l u := by
  rcases h0 : listLookup l iid with _ | d0
  · rw [h0] at h
    simp only [Option.map_none', Option.getD_none] at h
    show sumBy (countLedger u) (listInsert l iid d1) = sumBy (countLedger u) l
    rw [sumBy_insert_none _ _ _ _ h0, h]
    omega
  · rw [h0] at h
    simp only [Option.map_some', Option.getD_some] at h
    have hs := sumBy_insert_some (countLedger u) l iid d1 d0 h0
    show sumBy (countLedger u) (listInsert l iid d1) = sumBy (countLedger u) l
    omega

/-- The `attrD1` update does not change any per-user ledger count. -/
theorem countLedger_attrD1 (u : String) (d : InviterData) (c : String) :
    countLedger u (attrD1 d c) = countLedger u d := by
  simp [countLedger, attrD1_ledger]

/-- A fresh record has no ledger entries. -/
theorem countLedger_fresh (u username dn : String) :
    countLedger u (freshRecord username dn) = 0 := rfl

/-- Key-preserving maps that keep the projection keep the sum. -/
theorem sumBy_map (f : InviterData → Nat) (F : String × InviterData → String × InviterData)
    (l : List (String × InviterData)) (h : ∀ p, f (F p).2 = f p.2) :
    sumBy f (l.map F) = sumBy f l := by
  induction l with
  | nil => rfl
  | cons p rest ih =>
    simp [sumBy] at ih ⊢
    rw [h p, ih]

/-- Appending at a fresh key is found by lookup. -/
theorem listLookup_append_single {α : Type} (l : List (String × α)) (k : String) (v : α)
    (h : listLookup l k = none) : listLookup (l ++ [(k, v)]) k = some v := by
  induction l with
  | nil => simp [listLookup]
  | cons p rest ih =>
    by_cases hp : p.1 = k
    · simp [listLookup, hp] at h
    · simp [listLookup, hp] at h ⊢
      exact ih h

/-- Ledger count of the record read or created at the start of attribution. -/
theorem countLedger_attrData0 (s : EngineState) (m : Member) (inv : RemoteInvite) (u : String) :
    countLedger u (attrData0 s m inv)
      = ((listLookup s.invite_data (toString m.id)).map (countLedger u)).getD 0 := by
  unfold attrData0
  rcases h0 : listLookup s.invite_data (toString m.id) with _ | d0 <;>
    simp [h0, countLedger_fresh]

/-- The counter-update insert preserves every per-user ledger count. -/
theorem ledgerCount_attrId1 (s : EngineState) (m : Member) (inv : RemoteInvite) (u : String) :
    ledgerCount
        (listInsert s.invite_data (toString m.id) (attrD1 (attrData0 s m inv) inv.code)) u
      = ledgerCount s.invite_data u := by
  apply ledgerCount_insert_attr
  rw [countLedger_attrD1, countLedger_attrData0]

/-- attrD2 leaves the counter unchanged. -/
theorem attrD2_succ (d : InviterData) (e : RecruitmentEntry) :
    (attrD2 d e).successful_invites = d.successful_invites := rfl

/-- attrD2 appends exactly the new entry. -/
theorem attrD2_ledger (d : InviterData) (e : RecruitmentEntry) :
    (attrD2 d e).recruitment_ledger = d.recruitment_ledger ++ [e] := rfl

/-- Appending a matching entry raises the per-user count by one. -/
theorem countLedger_attrD2_match (u : String) (d : InviterData) (e : RecruitmentEntry)
    (h : e.user_id = u) : countLedger u (attrD2 d e) = countLedger u d + 1 := by
  simp [countLedger, attrD2_ledger, List.filter_append, h]

/-- Appending a non-matching entry keeps the per-user count. -/
theorem countLedger_attrD2_nomatch (u : String) (d : InviterData) (e : RecruitmentEntry)
    (h : e.user_id ≠ u) : countLedger u (attrD2 d e) = countLedger u d := by
  simp [countLedger, attrD2_ledger, List.filter_append, h]

/-- Per-user ledger counts after the attribution block: either unchanged, or
the joining member's count goes from 0 to 1. -/
theorem ledgerCount_attrTable (s : EngineState) (inv : RemoteInvite) (m : Member)
    (ev : JoinEvent) (now : String) (u : String) :
    ledgerCount (attrTable s inv m ev now) u = ledgerCount s.invite_data u ∨
      (u = toString ev.member_id ∧ ledgerCount s.invite_data u = 0 ∧
        ledgerCount (attrTable s inv m ev now) u = 1) := by
  unfold attrTable
  by_cases hg : anyLedgerHas
      (listInsert s.invite_data (toString m.id) (attrD1 (attrData0 s m inv) inv.code))
      (toString ev.member_id) = true
  · simp only [hg, if_true]
    left
    exact ledgerCount_attrId1 s m inv u
  · rw [Bool.not_eq_true] at hg
    simp only [hg, Bool.false_eq_true, if_false]
    have hid1 := ledgerCount_attrId1 s m inv
    have hzero : ledgerCount s.invite_data (toString ev.member_id) = 0 := by
      rw [← hid1 (toString ev.member_id)]
      exact (anyLedgerHas_eq_false_iff _ _).mp hg
    have hself := listLookup_insert_self s.invite_data (toString m.id)
      (attrD1 (attrData0 s m inv) inv.code)
    have hs := sumBy_insert_some (countLedger u)
      (listInsert s.invite_data (toString m.id) (attrD1 (attrData0 s m inv) inv.code))
      (toString m.id)
      (attrD2 (attrD1 (attrData0 s m inv) inv.code) (joinEntry ev inv now))
      (attrD1 (attrData0 s m inv) inv.code) hself
    have h1 := hid1 u
    by_cases hu : u = toString ev.member_id
    · right
      have hmatch : countLedger u
          (attrD2 (attrD1 (attrData0 s m inv) inv.code) (joinEntry ev inv now))
          = countLedger u (attrD1 (attrData0 s m inv) inv.code) + 1 :=
        countLedger_attrD2_match _ _ _ (by rw [hu]; rfl)
      rw [hmatch] at hs
      have h0' : ledgerCount s.invite_data u = 0 := by
        rw [hu]
        exact hzero
      refine ⟨hu, h0', ?_⟩
      simp only [ledgerCount] at h0' h1 ⊢
      omega
    · left
      have hnm : countLedger u
          (attrD2 (attrD1 (attrData0 s m inv) inv.code) (joinEntry ev inv now))
          = countLedger u (attrD1 (attrData0 s m inv) inv.code) :=
        countLedger_attrD2_nomatch _ _ _ (fun hh => hu (hh.symm.trans rfl))
      rw [hnm] at hs
      simp only [ledgerCount] at h1 ⊢
      omega

/-- validate_invites preserves every per-user ledger count. -/
theorem ledgerCount_validate (s : EngineState) (remote : List RemoteInvite) (u : String) :
    ledgerCount (validate_invites s remote).invite_data u = ledgerCount s.invite_data u := by
  unfold validate_invites
  exact sumBy_map _ _ _ (fun p => by simp [countLedger])

/-- validate_invites preserves the total of the counters. -/
theorem totalSuccessful_validate (s : EngineState) (remote : List RemoteInvite) :
    totalSuccessful (validate_invites s remote) = totalSuccessful s := by
  unfold validate_invites totalSuccessful
  exact sumBy_map _ _ _ (fun p => by simp)

/-- on_invite_create preserves every per-user ledger count. -/
theorem ledgerCount_on_invite_create (ev : CreateEvent) (now : String) (s : EngineState)
    (u : String) :
    ledgerCount (on_invite_create ev now s).invite_data u = ledgerCount s.invite_data u := by
  unfold on_invite_create
  cases hinv : ev.inviter with
  | none => rfl
  | some inviter =>
    simp only [hinv]
    cases h0 : listLookup s.invite_data (toString inviter.id) with
    | none =>
      simp only [h0]
      have hap : listLookup
          (s.invite_data ++ [(toString inviter.id, freshRecord inviter.username inviter.display_name)])
          (toString inviter.id) = some (freshRecord inviter.username inviter.display_name) :=
        listLookup_append_single _ _ _ h0
      simp only [hap]
      have hact : listLookup (freshRecord inviter.username inviter.display_name).active_invites
          ev.code = none := rfl
      simp only [hact]
      rw [ledgerCount_insert_attr _ _ _ _ (by rw [hap]; simp [countLedger, freshRecord])]
      simp only [ledgerCount]
      rw [sumBy_append]
      simp [sumBy, countLedger_fresh]
    | some d =>
      simp only [h0]
      cases h1 : listLookup d.active_invites ev.code with
      | none =>
        simp only [h1]
        exact ledgerCount_insert_attr _ _ _ _ (by simp [h0, countLedger])
      | some n =>
        simp only [h1]

/-- on_invite_delete preserves every per-user ledger count. -/
theorem ledgerCount_on_invite_delete (code : String) (s : EngineState) (u : String) :
    ledgerCount (on_invite_delete code s).1.invite_data u = ledgerCount s.invite_data u := by
  unfold on_invite_delete
  rcases hr : s.invites.find? (fun e => e.code == code) with _ | e
  · simp only [hr, Option.map_none']
  · simp only [hr, Option.map_some']
    rcases h0 : listLookup s.invite_data (toString e.inviter_id) with _ | d
    · simp only [h0]
    · rcases h1 : listLookup d.active_invites code with _ | n
      · simp only [h0, h1]
      · simp only [h0, h1]
        exact ledgerCount_insert_attr _ _ _ _ (by simp [h0, countLedger])

/-- refreshRecord never touches the recruitment ledger. -/
theorem refreshRecord_ledger (g : Guild) (k : String) (d : InviterData) :
    (refreshRecord g k d).recruitment_ledger = d.recruitment_ledger := by
  unfold refreshRecord
  cases hf : g.members.find? (fun m => toString m.id == k) with
  | none => rfl
  | some m =>
    simp only [hf]
    split <;> rfl

/-- ensure_all_display_names preserves every per-user ledger count. -/
theorem ledgerCount_refresh (g : Guild) (s : EngineState) (u : String) :
    ledgerCount (ensure_all_display_names g s).1.invite_data u = ledgerCount s.invite_data u := by
  unfold ensure_all_display_names
  exact sumBy_map _ _ _ (fun p => by simp [countLedger, refreshRecord_ledger])

/-- joinLoop keeps every per-user ledger count at most one. -/
theorem joinLoop_unique (g : Guild) (ev : JoinEvent) (now : String) :
    ∀ (remote : List RemoteInvite) (s : EngineState),
      (∀ u, ledgerCount s.invite_data u ≤ 1) →
      ∀ u, ledgerCount (joinLoop g ev now remote s).1.invite_data u ≤ 1 := by
  intro remote
  induction remote with
  | nil => intro s h u; exact h u
  | cons inv rest ih =>
    intro s h u
    unfold joinLoop
    by_cases hc : (listLookup s.cache inv.code).getD 0 < inv.uses
    · rw [if_pos hc]
      cases hf : findAttributable s.invites g inv.code with
      | none => exact ih s h u
      | some em =>
        show ledgerCount
            (joinLoop g ev now rest (attributeInvite g s inv em.2 ev now).1).1.invite_data u ≤ 1
        apply ih
        intro w
        rw [attributeInvite_invite_data]
        rcases ledgerCount_attrTable s inv em.2 ev now w with hcase | ⟨huw, hzero, hone⟩
        · rw [hcase]
          exact h w
        · rw [hone]
    · rw [if_neg hc]
      exact ih s h u

/-- joinLoop leaves an already-positive per-user ledger count unchanged. -/
theorem joinLoop_ledger_fixed (g : Guild) (ev : JoinEvent) (now : String) :
    ∀ (remote : List RemoteInvite) (s : EngineState) (u : String),
      1 ≤ ledgerCount s.invite_data u →
      ledgerCount (joinLoop g ev now remote s).1.invite_data u = ledgerCount s.invite_data u := by
  intro remote
  induction remote with
  | nil => intro s u _; rfl
  | cons inv rest ih =>
    intro s u h
    unfold joinLoop
    by_cases hc : (listLookup s.cache inv.code).getD 0 < inv.uses
    · rw [if_pos hc]
      cases hf : findAttributable s.invites g inv.code with
      | none => exact ih s u h
      | some em =>
        show ledgerCount
            (joinLoop g ev now rest (attributeInvite g s inv em.2 ev now).1).1.invite_data u
          = ledgerCount s.invite_data u
        rcases ledgerCount_attrTable s inv em.2 ev now u with hcase | ⟨huw, hzero, hone⟩
        · have hstep : ledgerCount (attributeInvite g s inv em.2 ev now).1.invite_data u
              = ledgerCount s.invite_data u := by
            rw [attributeInvite_invite_data]
            exact hcase
          rw [ih _ u (by rw [hstep]; exact h), hstep]
        · omega
    · rw [if_neg hc]
      exact ih s u h

/-- Incrementing a saved invite's use count changes neither the scanned codes
nor the scanned inviter ids, so attributability of any code is unchanged. -/
theorem findAttributable_isSome_bumpUses (l : List InviteEntry) (c' : String) (g : Guild)
    (c : String) :
    (findAttributable (bumpUses l c') g c).isSome = (findAttributable l g c).isSome := by
  induction l with
  | nil => rfl
  | cons e rest ih =>
    by_cases hcc : (e.code == c) = true
    · cases hm : getMember g e.inviter_id with
      | some m =>
        by_cases hb : (e.code == c') = true
        · simp [bumpUses, findAttributable, hb, hcc, hm]
        · simp [bumpUses, findAttributable, hb, hcc, hm]
      | none =>
        by_cases hb : (e.code == c') = true
        · simp [bumpUses, findAttributable, hb, hcc, hm]
        · simp [bumpUses, findAttributable, hb, hcc, hm, ih]
    · by_cases hb : (e.code == c') = true
      · simp [bumpUses, findAttributable, hb, hcc]
      · simp [bumpUses, findAttributable, hb, hcc, ih]

/-- An attribution for one code leaves every other code's attributability
unchanged: the cache moves only at the attributed code, and the saved-invite
scan sees the same codes and inviter ids. -/
theorem attributableB_attributeInvite (g : Guild) (s : EngineState) (inv : RemoteInvite)
    (m : Member) (ev : JoinEvent) (now : String) (inv' : RemoteInvite)
    (h : inv'.code ≠ inv.code) :
    attributableB (attributeInvite g s inv m ev now).1 g inv' = attributableB s g inv' := by
  unfold attributableB
  rw [attributeInvite_cache, attributeInvite_invites]
  rw [listLookup_insert_ne _ _ _ _ h]
  rw [findAttributable_isSome_bumpUses]

/-- Over remote lists with pairwise-distinct codes, joinLoop adds one
successful invite for every remote invite that is attributable in the
starting state. -/
theorem joinLoop_total (g : Guild) (ev : JoinEvent) (now : String) :
    ∀ (remote : List RemoteInvite) (s : EngineState),
      (remote.map (fun i => i.code)).Nodup →
      totalSuccessful (joinLoop g ev now remote s).1
        = totalSuccessful s + (remote.filter (fun inv => attributableB s g inv)).length := by
  intro remote
  induction remote with
  | nil => intro s _; rfl
  | cons inv rest ih =>
    intro s hnd
    have hnd' : (rest.map (fun i => i.code)).Nodup := by
      simp only [List.map_cons, List.nodup_cons] at hnd
      exact hnd.2
    have hnotin : ∀ inv' ∈ rest, inv'.code ≠ inv.code := by
      intro inv' hmem heq
      simp only [List.map_cons, List.nodup_cons] at hnd
      exact hnd.1 (heq ▸ List.mem_map_of_mem (fun i => i.code) hmem)
    unfold joinLoop
    by_cases hc : (listLookup s.cache inv.code).getD 0 < inv.uses
    · rw [if_pos hc]
      cases hf : findAttributable s.invites g inv.code with
      | none =>
        have hA : attributableB s g inv = false := by
          unfold attributableB
          rw [hf]
          simp
        rw [ih s hnd']
        simp [List.filter_cons, hA]
      | some em =>
        show totalSuccessful (joinLoop g ev now rest (attributeInvite g s inv em.2 ev now).1).1
            = totalSuccessful s + ((inv :: rest).filter (fun i => attributableB s g i)).length
        have hA : attributableB s g inv = true := by
          unfold attributableB
          rw [hf]
          simp [hc]
        rw [ih _ hnd']
        have hstep : totalSuccessful (attributeInvite g s inv em.2 ev now).1
            = totalSuccessful s + 1 := by
          show sumBy (fun d => d.successful_invites)
              (attributeInvite g s inv em.2 ev now).1.invite_data = _
          rw [attributeInvite_invite_data, sumBy_attrTable_succ]
          rfl
        have hfilter :
            rest.filter (fun i => attributableB (attributeInvite g s inv em.2 ev now).1 g i)
              = rest.filter (fun i => attributableB s g i) := by
          apply List.filter_congr
          intro x hx
          rw [attributableB_attributeInvite g s inv em.2 ev now x (hnotin x hx)]
        rw [hfilter, hstep]
        simp [List.filter_cons, hA]
        omega
    · rw [if_neg hc]
      have hA : attributableB s g inv = false := by
        unfold attributableB
        simp [hc]
      rw [ih s hnd']
      simp [List.filter_cons, hA]

/-- Attributability reads only the cache and saved invites, which
validate_invites leaves untouched. -/
theorem attributableB_validate (s : EngineState) (remote : List RemoteInvite) (g : Guild)
    (inv : RemoteInvite) :
    attributableB (validate_invites s remote) g inv = attributableB s g inv := rfl

/-- Every handler step preserves the system-wide ledger-uniqueness bound. -/
theorem step_preserves_unique (s s' : EngineState) (hs : Step s s')
    (h : ∀ u, ledgerCount s.invite_data u ≤ 1) :
    ∀ u, ledgerCount s'.invite_data u ≤ 1 := by
  cases hs with
  | create ev now =>
    intro u
    rw [ledgerCount_on_invite_create]
    exact h u
  | remove code =>
    intro u
    rw [ledgerCount_on_invite_delete]
    exact h u
  | join g remote ev now =>
    intro u
    unfold on_member_join
    apply joinLoop_unique
    intro w
    rw [ledgerCount_validate]
    exact h w
  | refresh g =>
    intro u
    rw [ledgerCount_refresh]
    exact h u
  | sweep remote =>
    intro u
    rw [ledgerCount_validate]
    exact h u

/-- The uniqueness guard inside the attribution block coincides with the
guard evaluated on the starting table. -/
theorem anyLedgerHas_attrId1 (s : EngineState) (m : Member) (inv : RemoteInvite) (u : String) :
    anyLedgerHas (listInsert s.invite_data (toString m.id) (attrD1 (attrData0 s m inv) inv.code)) u
      = anyLedgerHas s.invite_data u :=
  anyLedgerHas_congr _ _ _ (ledgerCount_attrId1 s m inv u)

/-- Lookup of the attributed inviter's record after the attribution block. -/
theorem listLookup_attrTable_self (s : EngineState) (inv : RemoteInvite) (m : Member)
    (ev : JoinEvent) (now : String) :
    listLookup (attrTable s inv m ev now) (toString m.id)
      = some (if anyLedgerHas s.invite_data (toString ev.member_id)
              then attrD1 (attrData0 s m inv) inv.code
              else attrD2 (attrD1 (attrData0 s m inv) inv.code) (joinEntry ev inv now)) := by
  unfold attrTable
  simp only []
  rw [anyLedgerHas_attrId1]
  by_cases hg : anyLedgerHas s.invite_data (toString ev.member_id) = true
  · rw [if_pos hg, if_pos hg]
    exact listLookup_insert_self _ _ _
  · rw [Bool.not_eq_true] at hg
    rw [hg]
    simp only [Bool.false_eq_true, if_false]
    exact listLookup_insert_self _ _ _

/-- The counter of the record read at the start of attribution is the
attributed inviter's current counter. -/
theorem attrData0_succ (s : EngineState) (m : Member) (inv : RemoteInvite) :
    (attrData0 s m inv).successful_invites = succOf s (toString m.id) := by
  unfold attrData0 succOf
  cases h0 : listLookup s.invite_data (toString m.id) <;> simp [h0, freshRecord]

/-- The ledger length of the record read at the start of attribution. -/
theorem attrData0_ledgerLen (s : EngineState) (m : Member) (inv : RemoteInvite) :
    (attrData0 s m inv).recruitment_ledger.length = ledgerLenOf s (toString m.id) := by
  unfold attrData0 ledgerLenOf
  cases h0 : listLookup s.invite_data (toString m.id) <;> simp [h0, freshRecord]

/-- The notifications emitted by the attribution block, by definition. -/
theorem attributeInvite_notifs (g : Guild) (s : EngineState) (inv : RemoteInvite)
    (m : Member) (ev : JoinEvent) (now : String) :
    (attributeInvite g s inv m ev now).2
      = (if (attrData0 s m inv).successful_invites + 1 ∈ ([5, 10, 15, 20, 25, 30, 50] : List Nat)
            ∧ (attrData0 s m inv).successful_invites
                < (attrData0 s m inv).successful_invites + 1
         then [{ recipient := g.owner_id
                 inviter_display_name := m.display_name
                 new_count := (attrData0 s m inv).successful_invites + 1
                 recruit_display_name := ev.member_display_name }]
         else []) := rfl

/-- Claim C1, counterexample: the claim says at most one invite is attributed
per join event.  In `exState` both remote invites "A" and "B" show a use
delta; `on_member_join` attributes both (each inviter's counter rises to 1,
the total rises by 2), because the `break` at src/main.py line 423 exits only
the inner saved-invite scan, not the outer loop over remote invites. -/
theorem c1_counterexample :
    totalSuccessful exState = 0 ∧
    totalSuccessful (on_member_join exGuild [exRA, exRB] exJoin "t1" exState).1 = 2 ∧
    succOf (on_member_join exGuild [exRA, exRB] exJoin "t1" exState).1 "1" = 1 ∧
    succOf (on_member_join exGuild [exRA, exRB] exJoin "t1" exState).1 "2" = 1 :=
  ⟨rfl, rfl, rfl, rfl⟩

/-- Claim C1, amended: after an invite is attributed the handler stops
scanning only the saved-invite registry entries for that remote invite; the
outer scan over remote invites continues against the updated state, so one
invite is attributed per remote invite with a positive use delta and a
resolvable inviter (not at most one per join event).  Over remote lists with
distinct codes the total number of attributions equals the number of such
remote invites. -/
theorem c1_amended_scan_continues (g : Guild) (remote : List RemoteInvite) (ev : JoinEvent)
    (now : String) (s : EngineState)
    (hnd : (remote.map (fun i => i.code)).Nodup) :
    totalSuccessful (on_member_join g remote ev now s).1
      = totalSuccessful s + (remote.filter (fun inv => attributableB s g inv)).length := by
  unfold on_member_join
  rw [joinLoop_total g ev now remote _ hnd, totalSuccessful_validate]
  rfl

/-- Claim C1, witness for the amended statement at the two-invite state. -/
theorem c1_amended_witness :
    totalSuccessful (on_member_join exGuild [exRA, exRB] exJoin "t1" exState).1
      = totalSuccessful exState
        + (([exRA, exRB]).filter (fun inv => attributableB exState exGuild inv)).length :=
  c1_amended_scan_continues exGuild [exRA, exRB] exJoin "t1" exState (by decide)

/-- Claim C2: (1) in every state reachable from the empty state through the
event handlers, every user id occurs in at most one recruitment-ledger entry
across all inviters' records; (2) a join event for a member whose user id is
already present in some ledger leaves that user's total ledger count
unchanged, so delivering the same join event twice never appends a second
RecruitmentEntry for that user. -/
theorem c2_uniqueness :
    (∀ s, Reachable s → ∀ uid, ledgerCount s.invite_data uid ≤ 1) ∧
    (∀ (g : Guild) (remote : List RemoteInvite) (ev : JoinEvent) (now : String)
        (s : EngineState),
      1 ≤ ledgerCount s.invite_data (toString ev.member_id) →
      ledgerCount (on_member_join g remote ev now s).1.invite_data (toString ev.member_id)
        = ledgerCount s.invite_data (toString ev.member_id)) := by
  constructor
  · intro s hr
    induction hr with
    | base =>
      intro uid
      simp [ledgerCount, sumBy]
    | step s s' hr hstep ih => exact step_preserves_unique s s' hstep ih
  · intro g remote ev now s h
    unfold on_member_join
    rw [joinLoop_ledger_fixed g ev now remote _ _ (by rw [ledgerCount_validate]; exact h)]
    exact ledgerCount_validate s remote _

/-- Claim C2, witness: the invariant at the initial state, and redelivery of
member 100's join at a state where member 100 is already recruited. -/
theorem c2_uniqueness_witness :
    ledgerCount (EngineState.mk [] [] []).invite_data "100" ≤ 1 ∧
    ledgerCount (on_member_join exGuild [exRB] exJoin "t1" exState2).1.invite_data
        (toString exJoin.member_id)
      = ledgerCount exState2.invite_data (toString exJoin.member_id) :=
  ⟨c2_uniqueness.1 _ Reachable.base "100",
   c2_uniqueness.2 exGuild [exRB] exJoin "t1" exState2 (by decide)⟩

/-- Claim C3, counterexample: in `exState2` member 100 is already in inviter
1's ledger; a join by member 100 through invite "B" is attributed to inviter
2, whose `successful_invites` rises by 1 while its `recruitment_ledger` stays
empty (the uniqueness guard blocks the append), so the two increments do not
always occur together as the claim states. -/
theorem c3_counterexample :
    succOf (on_member_join exGuild [exRB] exJoin "t1" exState2).1 "2"
        = succOf exState2 "2" + 1 ∧
    ledgerLenOf exState2 "2" = 0 ∧
    ledgerLenOf (on_member_join exGuild [exRB] exJoin "t1" exState2).1 "2" = 0 :=
  ⟨rfl, rfl, rfl⟩

/-- Claim C3, amended: each successful attribution raises the inviter's
`successful_invites` by exactly 1; the inviter's `recruitment_ledger` grows
by exactly 1 when the joining member's user id appears in no ledger yet, and
stays unchanged when the member is already recruited somewhere. -/
theorem c3_amended_conservation (g : Guild) (s : EngineState) (inv : RemoteInvite)
    (m : Member) (ev : JoinEvent) (now : String) :
    succOf (attributeInvite g s inv m ev now).1 (toString m.id)
        = succOf s (toString m.id) + 1 ∧
    ledgerLenOf (attributeInvite g s inv m ev now).1 (toString m.id)
        = ledgerLenOf s (toString m.id)
          + (if anyLedgerHas s.invite_data (toString ev.member_id) then 0 else 1) := by
  have hl := listLookup_attrTable_self s inv m ev now
  constructor
  · unfold succOf
    rw [attributeInvite_invite_data, hl]
    by_cases hg : anyLedgerHas s.invite_data (toString ev.member_id) = true
    · rw [if_pos hg]
      simp [attrD1_succ, attrData0_succ, succOf]
    · rw [Bool.not_eq_true] at hg
      rw [hg]
      simp only [Bool.false_eq_true, if_false]
      simp [attrD2_succ, attrD1_succ, attrData0_succ, succOf]
  · unfold ledgerLenOf
    rw [attributeInvite_invite_data, hl]
    by_cases hg : anyLedgerHas s.invite_data (toString ev.member_id) = true
    · rw [if_pos hg, if_pos hg]
      have := attrData0_ledgerLen s m inv
      unfold ledgerLenOf at this
      simp [attrD1_ledger, this]
    · rw [Bool.not_eq_true] at hg
      rw [hg]
      simp only [Bool.false_eq_true, if_false]
      have := attrData0_ledgerLen s m inv
      unfold ledgerLenOf at this
      simp [attrD2_ledger, attrD1_ledger, this]

/-- Claim C5: the attribution block emits the milestone notification to the
guild owner exactly when the incremented counter lies in the fixed threshold
list, which (the counter moving by exactly one) is exactly when the new count
crosses a threshold; at most one notification is emitted per attribution. -/
theorem c5_milestones (g : Guild) (s : EngineState) (inv : RemoteInvite) (m : Member)
    (ev : JoinEvent) (now : String) :
    ((attributeInvite g s inv m ev now).2
       = if succOf s (toString m.id) + 1 ∈ ([5, 10, 15, 20, 25, 30, 50] : List Nat)
         then [{ recipient := g.owner_id
                 inviter_display_name := m.display_name
                 new_count := succOf s (toString m.id) + 1
                 recruit_display_name := ev.member_display_name }]
         else []) ∧
    ((attributeInvite g s inv m ev now).2 ≠ [] ↔
      ∃ t ∈ ([5, 10, 15, 20, 25, 30, 50] : List Nat),
        succOf s (toString m.id) < t ∧ t ≤ succOf s (toString m.id) + 1) := by
  have h1 : (attributeInvite g s inv m ev now).2
      = if succOf s (toString m.id) + 1 ∈ ([5, 10, 15, 20, 25, 30, 50] : List Nat)
        then [{ recipient := g.owner_id
                inviter_display_name := m.display_name
                new_count := succOf s (toString m.id) + 1
                recruit_display_name := ev.member_display_name }]
        else [] := by
    rw [attributeInvite_notifs, attrData0_succ]
    by_cases hm : succOf s (toString m.id) + 1 ∈ ([5, 10, 15, 20, 25, 30, 50] : List Nat)
    · rw [if_pos ⟨hm, Nat.lt_succ_self _⟩, if_pos hm]
    · rw [if_neg (fun hc => hm hc.1), if_neg hm]
  refine ⟨h1, ?_⟩
  rw [h1]
  by_cases hm : succOf s (toString m.id) + 1 ∈ ([5, 10, 15, 20, 25, 30, 50] : List Nat)
  · rw [if_pos hm]
    constructor
    · intro _
      exact ⟨succOf s (toString m.id) + 1, hm, Nat.lt_succ_self _, Nat.le_refl _⟩
    · intro _
      simp
  · rw [if_neg hm]
    constructor
    · intro hne
      exact absurd rfl hne
    · rintro ⟨t, ht, hlt, hle⟩
      have heq : t = succOf s (toString m.id) + 1 := by omega
      exact absurd (heq ▸ ht) hm

/-- Claim C6, counterexample: invite "A" shows a delta (cache 0, observed 1)
and its saved entry resolves to inviter 1, who is not a member of
`exGuildEmpty`; the claim says the cache is still advanced to 1, but after
the join the cache entry for "A" is unchanged at 0 (the cache update at
src/main.py lines 420-422 sits inside the `if inviter:` branch). -/
theorem c6_counterexample :
    listLookup exState.cache "A" = some 0 ∧
    exRA.uses = 1 ∧
    findAttributable exState.invites exGuildEmpty "A" = none ∧
    listLookup (on_member_join exGuildEmpty [exRA] exJoin "t1" exState).1.cache "A"
      = some 0 :=
  ⟨rfl, rfl, rfl, rfl⟩

/-- Claim C6, amended: when no saved entry for a remote invite's code has an
inviter who is still a member, the handler skips the invite entirely —
attribution is skipped and the Invite Cache is left unchanged, so the same
use delta is seen again on the next join. -/
theorem c6_amended_skip (g : Guild) (ev : JoinEvent) (now : String) (s : EngineState)
    (inv : RemoteInvite) (rest : List RemoteInvite)
    (h : findAttributable s.invites g inv.code = none) :
    joinLoop g ev now (inv :: rest) s = joinLoop g ev now rest s := by
  show (if (listLookup s.cache inv.code).getD 0 < inv.uses then
          match findAttributable s.invites g inv.code with
          | some em =>
            let step := attributeInvite g s inv em.2 ev now
            let restResult := joinLoop g ev now rest step.1
            (restResult.1, step.2 ++ restResult.2)
          | none => joinLoop g ev now rest s
        else joinLoop g ev now rest s) = joinLoop g ev now rest s
  by_cases hc : (listLookup s.cache inv.code).getD 0 < inv.uses
  · rw [if_pos hc, h]
  · rw [if_neg hc]

/-- Claim C6, witness for the amended statement. -/
theorem c6_amended_witness :
    joinLoop exGuildEmpty exJoin "t1" [exRA] exState
      = joinLoop exGuildEmpty exJoin "t1" [] exState :=
  c6_amended_skip exGuildEmpty exJoin "t1" exState exRA [] rfl

/-- Lookup through a key-preserving per-record map. -/
theorem listLookup_map_keyed {α : Type} (l : List (String × α)) (F : String → α → α)
    (k : String) :
    listLookup (l.map (fun p => (p.1, F p.1 p.2))) k = (listLookup l k).map (F k) := by
  induction l with
  | nil => rfl
  | cons p rest ih =>
    by_cases hp : p.1 = k
    · simp [listLookup, hp]
    · simp [listLookup, hp, ih]

/-- The exact save sequence produced by on_invite_delete. -/
theorem on_invite_delete_saves (code : String) (s : EngineState) :
    (on_invite_delete code s).2
      = (if deleteResolves s code then [SaveEvent.inviteData] else [])
        ++ (if (s.invites.filter (fun e => !(e.code == code))).length < s.invites.length
            then [SaveEvent.invites] else []) := by
  unfold on_invite_delete deleteResolves
  rcases hr : s.invites.find? (fun x => x.code == code) with _ | e
  · simp only [hr, Option.map_none']
    rfl
  · simp only [hr, Option.map_some']
    rcases h0 : listLookup s.invite_data (toString e.inviter_id) with _ | d
    · simp only [h0]
      rfl
    · rcases h1 : listLookup d.active_invites code with _ | v
      · simp only [h0, h1]
        rfl
      · simp only [h0, h1]
        rfl

/-- Claim C4, counterexample: invite "A" is already registered for inviter 1
(present in `active_invites` and once in the registry).  Replaying
on_invite_create for "A" leaves `active_invites` unchanged but appends a
second registry entry for "A" (src/main.py line 233 appends
unconditionally), contradicting the claimed idempotence of the registry. -/
theorem c4_counterexample :
    regCount exState "A" = 1 ∧
    regCount (on_invite_create exCreateA "t2" exState) "A" = 2 ∧
    activeDictOf (on_invite_create exCreateA "t2" exState) "1" = [("A", 0)] :=
  ⟨rfl, rfl, rfl⟩

/-- Claim C4, amended: replaying on_invite_create for a code already known to
its inviter leaves the Inviter Ledger unchanged (no duplicate
`active_invites` entry), but appends one more registry entry for that code. -/
theorem c4_amended_idempotence (ev : CreateEvent) (now : String) (s : EngineState)
    (m : Member) (d : InviterData)
    (h1 : ev.inviter = some m)
    (h2 : listLookup s.invite_data (toString m.id) = some d)
    (h3 : (listLookup d.active_invites ev.code).isSome = true) :
    (on_invite_create ev now s).invite_data = s.invite_data ∧
    regCount (on_invite_create ev now s) ev.code = regCount s ev.code + 1 := by
  rcases h4 : listLookup d.active_invites ev.code with _ | v
  · rw [h4] at h3
    simp at h3
  · constructor
    · unfold on_invite_create
      rw [h1]
      simp [h2, h4]
    · unfold on_invite_create regCount
      rw [h1]
      simp [h2, h4, List.filter_append]

/-- Claim C4, witness for the amended statement at the replayed create. -/
theorem c4_amended_witness :
    (on_invite_create exCreateA "t2" exState).invite_data = exState.invite_data ∧
    regCount (on_invite_create exCreateA "t2" exState) exCreateA.code
      = regCount exState exCreateA.code + 1 :=
  c4_amended_idempotence exCreateA "t2" exState exM1 exDA rfl rfl rfl

/-- Claim C7: on_invite_delete removes the code from the cache and (last)
from the registry; the registry is persisted exactly when an entry was
removed; the Inviter Ledger is persisted exactly when the inviter resolved
through the pre-deletion registry and the code was in that inviter's
`active_invites`; and whenever the pre-deletion registry resolves the
inviter, the code is removed from that inviter's `active_invites` — the
lookup never fails because resolution precedes every removal. -/
theorem c7_delete_ordering (s : EngineState) (code : String) :
    (on_invite_delete code s).1.cache = listErase s.cache code ∧
    (on_invite_delete code s).1.invites = s.invites.filter (fun e => !(e.code == code)) ∧
    (SaveEvent.invites ∈ (on_invite_delete code s).2 ↔
        (s.invites.filter (fun e => !(e.code == code))).length < s.invites.length) ∧
    (SaveEvent.inviteData ∈ (on_invite_delete code s).2 ↔ deleteResolves s code = true) ∧
    (∀ e : InviteEntry, s.invites.find? (fun x => x.code == code) = some e →
      ∀ d : InviterData, listLookup s.invite_data (toString e.inviter_id) = some d →
        (listLookup d.active_invites code).isSome = true →
          listLookup (on_invite_delete code s).1.invite_data (toString e.inviter_id)
            = some { d with active_invites := listErase d.active_invites code }) := by
  refine ⟨rfl, rfl, ?_, ?_, ?_⟩
  · rw [on_invite_delete_saves]
    rcases hres : deleteResolves s code with _ | _ <;>
      by_cases hlen : (s.invites.filter (fun e => !(e.code == code))).length
          < s.invites.length <;>
      simp [hlen]
  · rw [on_invite_delete_saves]
    rcases hres : deleteResolves s code with _ | _ <;>
      by_cases hlen : (s.invites.filter (fun e => !(e.code == code))).length
          < s.invites.length <;>
      simp [hlen]
  · intro e hfind d hlook hsome
    unfold on_invite_delete
    rcases hv : listLookup d.active_invites code with _ | v
    · rw [hv] at hsome
      simp at hsome
    · simp only [hfind, Option.map_some', hlook, hv]
      exact listLookup_insert_self _ _ _

/-- Claim C7, witness: deleting invite "A" in the two-inviter state. -/
theorem c7_delete_ordering_witness :
    (SaveEvent.inviteData ∈ (on_invite_delete "A" exState).2 ↔
        deleteResolves exState "A" = true) ∧
    listLookup (on_invite_delete "A" exState).1.invite_data (toString exEntA.inviter_id)
      = some { exDA with active_invites := listErase exDA.active_invites "A" } :=
  ⟨(c7_delete_ordering exState "A").2.2.2.1,
   (c7_delete_ordering exState "A").2.2.2.2 exEntA rfl exDA rfl rfl⟩

/-- Claim C8, counterexample: member 1's display name changed to "NewU1";
ensure_all_display_names updates user 1's own InviterRecord but leaves
inviter 8's RecruitmentEntry for user 1 at the old name "U1" — the claimed
propagation into ledgers does not exist (src/main.py lines 137-148 touch
only `display_name` of each InviterRecord). -/
theorem c8_counterexample :
    (listLookup (ensure_all_display_names exGuildNew exStateRef).1.invite_data "1").map
        (fun d => d.display_name) = some "NewU1" ∧
    listLookup (ensure_all_display_names exGuildNew exStateRef).1.invite_data "8"
      = some exD8 ∧
    exLed1.display_name = "U1" ∧
    ("U1" : String) ≠ "NewU1" := by
  refine ⟨rfl, rfl, rfl, by decide⟩

/-- Claim C8, amended: ensure_all_display_names rewrites each InviterRecord
through refreshRecord (updating only `display_name`, and only for users still
in the guild); recruitment ledgers are never touched, and the table is
persisted once exactly when some record changed. -/
theorem c8_amended_refresh (g : Guild) (s : EngineState) :
    (∀ iid d, listLookup s.invite_data iid = some d →
      listLookup (ensure_all_display_names g s).1.invite_data iid
        = some (refreshRecord g iid d)) ∧
    (∀ iid d, (refreshRecord g iid d).recruitment_ledger = d.recruitment_ledger) ∧
    ((ensure_all_display_names g s).2.2
      = if (ensure_all_display_names g s).2.1 then [SaveEvent.inviteData] else []) := by
  refine ⟨?_, fun iid d => refreshRecord_ledger g iid d, rfl⟩
  intro iid d hd
  show listLookup (s.invite_data.map (fun p => (p.1, refreshRecord g p.1 p.2))) iid
      = some (refreshRecord g iid d)
  rw [listLookup_map_keyed, hd]
  rfl

/-- Claim C8, witness: inviter 8's record passes through unchanged apart from
refreshRecord, and its ledger is untouched. -/
theorem c8_amended_witness :
    listLookup (ensure_all_display_names exGuildNew exStateRef).1.invite_data "8"
      = some (refreshRecord exGuildNew "8" exD8) ∧
    (refreshRecord exGuildNew "8" exD8).recruitment_ledger = exD8.recruitment_ledger :=
  ⟨(c8_amended_refresh exGuildNew exStateRef).1 "8" exD8 rfl,
   (c8_amended_refresh exGuildNew exStateRef).2.1 "8" exD8⟩

/-- Claim C9: read_json_file returns the empty value whenever the backing
file is missing or its content fails to parse (never raising), and
write_json_file returns normally with a log line on every outcome — a write
failure is swallowed, never re-raised to the caller. -/
theorem c9_store_contract :
    (∀ (α : Type) (emptyVal : α) (parse : String → Option α) (f : FileContent),
      (f = FileContent.missing ∨ ∃ raw, f = FileContent.present raw ∧ parse raw = none) →
      read_json_file emptyVal parse f = emptyVal) ∧
    (∀ (path : String) (o : WriteOutcome),
      ∃ log, write_json_file path o = Except.ok log) := by
  constructor
  · intro α emptyVal parse f h
    rcases h with h | ⟨raw, hf, hp⟩
    · rw [h]
      rfl
    · rw [hf]
      show (match parse raw with
            | some d => d
            | none => emptyVal) = emptyVal
      rw [hp]
  · intro path o
    cases o with
    | success => exact ⟨_, rfl⟩
    | failure e => exact ⟨_, rfl⟩

/-- Claim C9, witness: a corrupt invite-data file loads as the empty table,
and a failing save still returns normally. -/
theorem c9_store_contract_witness :
    read_json_file ([] : List (String × InviterData)) (fun _ => none)
        (FileContent.present "corrupt") = [] ∧
    ∃ log, write_json_file "invite_data.json" (WriteOutcome.failure "disk full")
        = Except.ok log :=
  ⟨c9_store_contract.1 _ [] (fun _ => none) _ (Or.inr ⟨"corrupt", rfl, rfl⟩),
   c9_store_contract.2 "invite_data.json" (WriteOutcome.failure "disk full")⟩

/-- Claim C10: on_invite_delete is a frame update — every inviter keeps its
counter, ledger, username and display name; every `active_invites` entry for
a code other than the deleted one is unchanged; cache entries for other codes
are unchanged; and the registry afterwards holds exactly the entries whose
code differs from the deleted one. -/
theorem c10_delete_frame (s : EngineState) (code : String) :
    (∀ iid d, listLookup s.invite_data iid = some d →
      ∃ d', listLookup (on_invite_delete code s).1.invite_data iid = some d' ∧
        d'.successful_invites = d.successful_invites ∧
        d'.recruitment_ledger = d.recruitment_ledger ∧
        d'.username = d.username ∧
        d'.display_name = d.display_name ∧
        ∀ c, c ≠ code → listLookup d'.active_invites c = listLookup d.active_invites c) ∧
    (∀ c, c ≠ code →
      listLookup (on_invite_delete code s).1.cache c = listLookup s.cache c) ∧
    (∀ e : InviteEntry,
      e ∈ (on_invite_delete code s).1.invites ↔ e ∈ s.invites ∧ ¬e.code = code) := by
  refine ⟨?_, ?_, ?_⟩
  · intro iid d hd
    unfold on_invite_delete
    rcases hr : s.invites.find? (fun x => x.code == code) with _ | e0
    · simp only [hr, Option.map_none']
      exact ⟨d, hd, rfl, rfl, rfl, rfl, fun c _ => rfl⟩
    · simp only [hr, Option.map_some']
      rcases h0 : listLookup s.invite_data (toString e0.inviter_id) with _ | d0
      · simp only [h0]
        exact ⟨d, hd, rfl, rfl, rfl, rfl, fun c _ => rfl⟩
      · rcases h1 : listLookup d0.active_invites code with _ | v
        · simp only [h0, h1]
          exact ⟨d, hd, rfl, rfl, rfl, rfl, fun c _ => rfl⟩
        · simp only [h0, h1]
          by_cases hiid : iid = toString e0.inviter_id
          · subst hiid
            rw [hd] at h0
            injection h0 with hd0
            subst hd0
            exact ⟨{ d with active_invites := listErase d.active_invites code },
              listLookup_insert_self _ _ _, rfl, rfl, rfl, rfl,
              fun c hc => listLookup_erase_ne _ _ _ hc⟩
          · exact ⟨d, by rw [listLookup_insert_ne _ _ _ _ hiid]; exact hd,
              rfl, rfl, rfl, rfl, fun c _ => rfl⟩
  · intro c hc
    exact listLookup_erase_ne _ _ _ hc
  · intro e
    show e ∈ s.invites.filter (fun x => !(x.code == code)) ↔ _
    simp [List.mem_filter]

/-- Claim C10, witness: after deleting "A", inviter 2 is untouched and the
frame conditions hold in the two-inviter state. -/
theorem c10_delete_frame_witness :
    (∃ d', listLookup (on_invite_delete "A" exState).1.invite_data "2" = some d' ∧
      d'.successful_invites = exDB.successful_invites ∧
      d'.recruitment_ledger = exDB.recruitment_ledger ∧
      d'.username = exDB.username ∧
      d'.display_name = exDB.display_name ∧
      ∀ c, c ≠ "A" → listLookup d'.active_invites c = listLookup exDB.active_invites c) ∧
    (∀ c, c ≠ "A" →
      listLookup (on_invite_delete "A" exState).1.cache c = listLookup exState.cache c) ∧
    (∀ e : InviteEntry,
      e ∈ (on_invite_delete "A" exState).1.invites ↔ e ∈ exState.invites ∧ ¬e.code = "A") :=
  ⟨(c10_delete_frame exState "A").1 "2" exDB rfl,
   (c10_delete_frame exState "A").2.1,
   (c10_delete_frame exState "A").2.2⟩

end InviteTracker
